import Mathlib

/-!
Shallow embedding of `src/app.py` (IoT multizone dashboard).

The embedded core:
* `ms_to_datetime` (app.py lines 67-73): epoch-ms to datetime, `none` on
  absent or unparseable input.
* `push_history` (app.py lines 105-121): append a snapshot row to the
  per-node history DataFrame, drop rows with a missing time, sort by time
  ascending, trim to the last `HISTORY_POINTS` rows.
* `send_cmd` (app.py lines 50-64): POST a command, classify the HTTP
  response or the raised transport exception into a `(success, message)`
  outcome.
* `fb_get_last` (app.py lines 41-47): read the latest snapshot; has no
  exception handler, so transport errors propagate to the caller.
* `refresh` (app.py lines 125-127): the fetch-then-append step of one
  refresh cycle.

Modelling choices:
* A Python datetime value is represented by its epoch-millisecond value
  (`Int`).  `dt.datetime.fromtimestamp` is modelled in UTC; the calendar
  rendering of an epoch value is `civilOfMs`.
* A pandas `time` cell is `Option Int`; `none` models a NaT/None cell,
  which is what `dropna(subset=["time"])` removes.
* The `ts` field of a fetched dict is `TsField`: absent (`last.get("ts")`
  returns `None`), present but unparseable (`float`/`fromtimestamp`
  raises), or a parsed epoch-ms value.
* `pd.DataFrame.sort_values("time")` is modelled as `List.insertionSort`
  by the time cell; the claims under study do not depend on the order of
  time-ties, which pandas' default (unstable) sort leaves unspecified.
* `requests.post` either returns a response (status code + body text) or
  raises; both are folded into the `ReqResult` input of `send_cmd`.
-/

namespace App

/-- The `ts` field of a fetched snapshot dict, as `push_history` sees it:
absent (`last.get("ts")` is `None`), present but not parseable as an
epoch-millisecond value (`float`/`fromtimestamp` raises), or parsed. -/
inductive TsField where
  | absent : TsField
  | invalid : TsField
  | valid (ms : Int) : TsField
deriving DecidableEq, Repr

/-- A fetched snapshot: the `ts` field plus the five metric fields read by
`push_history` via `last.get(...)`, each possibly absent. -/
structure Snapshot where
  ts : TsField
  temperature : Option ℚ
  humidity : Option ℚ
  luminosity : Option ℚ
  sound : Option ℚ
  fan_state : Option ℚ
deriving DecidableEq, Repr

/-- One row of the per-node history DataFrame (app.py lines 108-115):
a `time` cell (`none` models NaT/None) and the five metric cells. -/
structure Row where
  time : Option Int
  temperature : Option ℚ
  humidity : Option ℚ
  luminosity : Option ℚ
  sound : Option ℚ
  fan_state : Option ℚ
deriving DecidableEq, Repr

/-- `HISTORY_POINTS = int(os.getenv("HISTORY_POINTS", "120"))` (app.py
line 25), at its default. -/
def HISTORY_POINTS : Nat := 120

/-- `ms_to_datetime` (app.py lines 67-73): `None` for an absent `ts`,
`None` when parsing raises, otherwise the datetime of the epoch-ms value
(represented by that value). -/
def ms_to_datetime : TsField → Option Int
  | .absent => none
  | .invalid => none
  | .valid ms => some ms

/-- Comparison of two pandas time cells, ascending; only the
`some`/`some` case is ever exercised by `push_history`, because the sort
runs after `dropna` has removed every `none` cell. -/
def timeLe (a b : Option Int) : Bool :=
  match a, b with
  | none, _ => true
  | some _, none => false
  | some x, some y => decide (x ≤ y)

/-- `timeLe` as a relation on time cells. -/
def TLe (a b : Option Int) : Prop := timeLe a b = true

/-- Row comparison used by `sort_values("time")`: compare the time cells. -/
def RowLe (r s : Row) : Prop := timeLe r.time s.time = true

instance : DecidableRel TLe := fun a b => decEq (timeLe a b) true

instance : DecidableRel RowLe := fun r s => decEq (timeLe r.time s.time) true

instance : IsTotal (Option Int) TLe where
  total a b := by
    cases a <;> cases b <;> simp [TLe, timeLe] <;> omega

instance : IsTrans (Option Int) TLe where
  trans a b c hab hbc := by
    cases a <;> cases b <;> cases c <;> simp_all [TLe, timeLe] <;> omega

instance : IsAntisymm (Option Int) TLe where
  antisymm a b hab hba := by
    cases a <;> cases b <;> simp_all [TLe, timeLe] <;> omega

instance : IsTotal Row RowLe where
  total r s := IsTotal.total (r := TLe) r.time s.time

instance : IsTrans Row RowLe where
  trans r s u hrs hsu := IsTrans.trans (r := TLe) r.time s.time u.time hrs hsu

/-- The row built by `push_history` (app.py lines 107-115): the time cell
is `ms_to_datetime(last.get("ts")) or dt.datetime.now()` — a datetime
object is always truthy, so the `or` falls back to `now` exactly when
`ms_to_datetime` returned `None`. -/
def mkRow (last : Snapshot) (now : Int) : Row :=
  { time := some ((ms_to_datetime last.ts).getD now)
    temperature := last.temperature
    humidity := last.humidity
    luminosity := last.luminosity
    sound := last.sound
    fan_state := last.fan_state }

/-- `df.sort_values("time")`: sort rows ascending by time cell. -/
def sortRows (df : List Row) : List Row := List.insertionSort RowLe df

/-- Sorting a list of time cells ascending (the image of `sortRows` on the
`time` column). -/
def sortT (ts : List (Option Int)) : List (Option Int) := List.insertionSort TLe ts

/-- `df.iloc[-k:]`: the last `k` rows.  Python slice indices negate, and
`-0 == 0`, so `k = 0` yields the whole frame rather than an empty one. -/
def ilocLast (k : Nat) (df : List Row) : List Row :=
  if k = 0 then df else df.drop (df.length - k)

/-- `push_history` (app.py lines 105-121) with the capacity `cap`
(`HISTORY_POINTS`) and the wall clock `now` (the value
`dt.datetime.now()` returns during this call) made explicit:
append the new row, `dropna(subset=["time"])`, `sort_values("time")`,
then keep only the last `cap` rows when the length exceeds `cap`. -/
def push_history (cap : Nat) (df : List Row) (last : Snapshot) (now : Int) : List Row :=
  let row := mkRow last now
  let df2 := df ++ [row]
  let df3 := sortRows (df2.filter (fun r => r.time.isSome))
  if cap < df3.length then ilocLast cap df3 else df3

/-- The `time` column of a history DataFrame. -/
def timesOf (df : List Row) : List (Option Int) := df.map (fun r => r.time)

/-- Run a sequence of `push_history` calls (one refresh cycle each) on a
starting DataFrame; each input carries the fetched snapshot and the wall
clock of that call. -/
def runAppends (cap : Nat) (df : List Row) : List (Snapshot × Int) → List Row
  | [] => df
  | (s, now) :: rest => runAppends cap (push_history cap df s now) rest

/-- The resolved time cells of a sequence of appends, in call order. -/
def allTimes (inputs : List (Snapshot × Int)) : List (Option Int) :=
  inputs.map (fun p => (mkRow p.1 p.2).time)

/-- What `requests.post` did during one `send_cmd` call: returned a
response (status code and body text), or raised a transport-level
exception (timeout, connection refused, DNS failure, TLS error, ...)
carrying its string rendering. -/
inductive ReqResult where
  | response (status : Nat) (text : String) : ReqResult
  | exn (e : String) : ReqResult
deriving DecidableEq, Repr

/-- `send_cmd` (app.py lines 50-64), as a function of what the POST did:
2xx gives `(True, "OK (<status>)")`, any other status gives
`(False, "HTTP <status>: " ++ first 200 chars of the body)`, and a raised
exception is caught and gives `(False, str(e))`.  The function is total:
no input propagates an exception. -/
def send_cmd : ReqResult → Bool × String
  | .response status text =>
    if 200 ≤ status ∧ status < 300 then
      (true, "OK (" ++ toString status ++ ")")
    else
      (false, "HTTP " ++ toString status ++ ": " ++ text.take 200)
  | .exn e => (false, e)

/-- What the Firebase read `ref.get()` did during one `fb_get_last` call:
returned a value (`none` models both Python `None` and the falsy empty
dict) or raised a transport/service error. -/
inductive FetchResult where
  | ok (v : Option Snapshot) : FetchResult
  | err (e : String) : FetchResult
deriving DecidableEq, Repr

/-- `fb_get_last` (app.py lines 41-47), as a function of what the read
did.  The body is `val = ref.get(); return val` with no `try`/`except`:
a returned value is passed through, and a raised error propagates to the
caller (`Except.error`), distinct from any returned value. -/
def fb_get_last : FetchResult → Except String (Option Snapshot)
  | .ok v => Except.ok v
  | .err e => Except.error e

/-- The live-fetch step of one refresh cycle (app.py lines 125-127):
`last = fb_get_last(node) or {}` then `if last: push_history(node, last)`.
A propagated fetch error aborts the script run; an empty/absent snapshot
skips the append and leaves every node's history unchanged; otherwise the
selected node's history is appended to. -/
def refresh (cap : Nat) (hist : String → List Row) (node : String)
    (fr : FetchResult) (now : Int) : Except String (String → List Row) :=
  match fb_get_last fr with
  | .error e => .error e
  | .ok none => .ok hist
  | .ok (some last) =>
      .ok (fun n => if n = node then push_history cap (hist n) last now else hist n)

/-- Civil date from a day count since 1970-01-01 (proleptic Gregorian,
Howard Hinnant's algorithm), used to read an epoch value back as a
calendar date the way `datetime` renders it. -/
def civilFromDays (z0 : Int) : Int × Int × Int :=
  let z := z0 + 719468
  let era := Int.ediv z 146097
  let doe := z - era * 146097
  let yoe := Int.ediv (doe - Int.ediv doe 1460 + Int.ediv doe 36524 - Int.ediv doe 146096) 365
  let y := yoe + era * 400
  let doy := doe - (365 * yoe + Int.ediv yoe 4 - Int.ediv yoe 100)
  let mp := Int.ediv (5 * doy + 2) 153
  let d := doy - Int.ediv (153 * mp + 2) 5 + 1
  let m := if mp < 10 then mp + 3 else mp - 9
  (if m ≤ 2 then y + 1 else y, m, d)

/-- The UTC calendar rendering (year, month, day, hour, minute, second)
of an epoch-millisecond value, as `dt.datetime.fromtimestamp(ms / 1000)`
produces under UTC. -/
def civilOfMs (ms : Int) : Int × Int × Int × Int × Int × Int :=
  let secs := Int.ediv ms 1000
  let days := Int.ediv secs 86400
  let sod := Int.emod secs 86400
  let c := civilFromDays days
  (c.1, c.2.1, c.2.2, Int.ediv sod 3600, Int.emod (Int.ediv sod 60) 60, Int.emod sod 60)

end App

namespace App

/-! ### Helper lemmas -/

theorem mkRow_time_isSome (last : Snapshot) (now : Int) :
    (mkRow last now).time.isSome = true := rfl

theorem filter_isSome_of_valid (df : List Row) (h : ∀ r ∈ df, r.time.isSome = true) :
    df.filter (fun r => r.time.isSome) = df :=
  List.filter_eq_self.mpr h

theorem filter_append_row (df : List Row) (row : Row)
    (h : ∀ r ∈ df, r.time.isSome = true) (hrow : row.time.isSome = true) :
    (df ++ [row]).filter (fun r => r.time.isSome) = df ++ [row] :=
  List.filter_eq_self.mpr (by
    intro a ha
    rcases List.mem_append.mp ha with hl | hr
    · exact h a hl
    · rcases List.mem_singleton.mp hr with rfl; exact hrow)

theorem sortRows_perm (df : List Row) : (sortRows df).Perm df :=
  List.perm_insertionSort RowLe df

theorem sortRows_sorted (df : List Row) : List.Sorted RowLe (sortRows df) :=
  List.sorted_insertionSort RowLe df

theorem timesOf_sortRows (df : List Row) : timesOf (sortRows df) = sortT (timesOf df) := by
  refine List.eq_of_perm_of_sorted (r := TLe) ?_ ?_ ?_
  · exact ((sortRows_perm df).map _).trans ((List.perm_insertionSort TLe (timesOf df)).symm)
  · exact List.Pairwise.map _ (fun a b h => h) (sortRows_sorted df)
  · exact List.sorted_insertionSort TLe (timesOf df)

theorem sortT_append_singleton (L : List (Option Int)) (t : Option Int) :
    sortT (L ++ [t]) = List.orderedInsert TLe t (sortT L) := by
  refine List.eq_of_perm_of_sorted (r := TLe) ?_ ?_ ?_
  · refine (List.perm_insertionSort TLe (L ++ [t])).trans ?_
    refine (List.perm_append_singleton t L).trans ?_
    exact ((List.perm_insertionSort TLe L).symm.cons t).trans
      (List.perm_orderedInsert TLe t (sortT L)).symm
  · exact List.sorted_insertionSort TLe (L ++ [t])
  · exact (List.sorted_insertionSort TLe L).orderedInsert t _

theorem sortT_length (L : List (Option Int)) : (sortT L).length = L.length :=
  (List.perm_insertionSort TLe L).length_eq

theorem orderedInsert_of_le_all (t : Option Int) (L : List (Option Int))
    (h : ∀ x ∈ L, TLe t x) : List.orderedInsert TLe t L = t :: L := by
  cases L with
  | nil => rfl
  | cons b L => exact List.orderedInsert_of_le TLe L (h b (List.mem_cons_self b L))

/-- Key trim lemma: inserting into a sorted list and then dropping `m + 1`
is the same as inserting into the list with its `m` smallest entries
dropped and then dropping one. -/
theorem orderedInsert_drop (t : Option Int) :
    ∀ (m : Nat) (S : List (Option Int)), List.Sorted TLe S →
      (List.orderedInsert TLe t S).drop (m + 1)
        = (List.orderedInsert TLe t (S.drop m)).drop 1
  | 0, S, _ => by simp
  | m + 1, [], _ => by simp [List.orderedInsert]
  | m + 1, a :: S, hS => by
    by_cases h : TLe t a
    · rw [List.orderedInsert_of_le TLe S h]
      have hta : ∀ x ∈ S.drop m, TLe t x := by
        intro x hx
        exact IsTrans.trans (r := TLe) t a x h
          (List.rel_of_sorted_cons hS x (List.mem_of_mem_drop hx))
      simp only [List.drop_succ_cons, List.drop_drop]
      rw [orderedInsert_of_le_all t (S.drop m) hta]
      simp
    · have : List.orderedInsert TLe t (a :: S) = a :: List.orderedInsert TLe t S := by
        simp [List.orderedInsert, h]
      rw [this]
      simp only [List.drop_succ_cons]
      exact orderedInsert_drop t m S (List.sorted_cons.mp hS).2

end App

namespace App

/-! ### Claim theorems -/

/-- C1: after every `push_history` call — whatever the prior series and
the appended snapshot — the per-node history is sorted by its resolved
time ascending. -/
theorem push_history_sorted (cap : Nat) (df : List Row) (last : Snapshot) (now : Int) :
    List.Sorted RowLe (push_history cap df last now) := by
  have hs := sortRows_sorted ((df ++ [mkRow last now]).filter (fun r => r.time.isSome))
  simp only [push_history, ilocLast]
  split
  · split
    · exact hs
    · exact List.Pairwise.sublist (List.drop_sublist _ _) hs
  · exact hs

/-- C4: a `send_cmd` dispatch whose HTTP response has status `s` with
`200 ≤ s < 300` yields a success outcome with message `OK (<status>)`;
any other status yields a failure outcome whose message is
`HTTP <status>: ` followed by the first 200 characters of the body. -/
theorem send_cmd_http_outcome (status : Nat) (text : String) :
    (200 ≤ status ∧ status < 300 →
      send_cmd (.response status text) = (true, "OK (" ++ toString status ++ ")")) ∧
    (¬(200 ≤ status ∧ status < 300) →
      send_cmd (.response status text)
        = (false, "HTTP " ++ toString status ++ ": " ++ text.take 200)) := by
  constructor
  · intro h; simp [send_cmd, h]
  · intro h; simp [send_cmd, h]

set_option maxRecDepth 8000 in
theorem send_cmd_http_outcome_witness :
    send_cmd (.response 204 "") = (true, "OK (204)") ∧
    send_cmd (.response 500 "Internal Error") = (false, "HTTP 500: Internal Error") := by
  refine ⟨(send_cmd_http_outcome 204 "").1 (by decide), ?_⟩
  have h := (send_cmd_http_outcome 500 "Internal Error").2 (by decide)
  rw [h]
  decide

/-- C5: a `send_cmd` dispatch in which the POST raises a transport-level
error returns the failure outcome `(False, str(e))`; `send_cmd` is a
total function of what the request did, so no exception propagates. -/
theorem send_cmd_transport_error (e : String) : send_cmd (.exn e) = (false, e) := rfl

/-- C6: a `fb_get_last` fetch error propagates to the caller (there is no
handler in the function) and is a distinct failure mode, never equal to
the value returned for a legitimate "no data exists" (or any other)
result. -/
theorem fb_get_last_error_distinct (e : String) (v : Option Snapshot) :
    fb_get_last (.err e) = Except.error e ∧ fb_get_last (.ok v) = Except.ok v ∧
      fb_get_last (.err e) ≠ fb_get_last (.ok v) :=
  ⟨rfl, rfl, by simp [fb_get_last]⟩

/-- The snapshot `{temperature: 24.5, humidity: 55, ts: 1700000000000}`. -/
def snapC8 : Snapshot :=
  { ts := .valid 1700000000000, temperature := some 24.5, humidity := some 55,
    luminosity := none, sound := none, fan_state := none }

set_option maxRecDepth 4000 in
/-- C8: appending `{temperature: 24.5, humidity: 55, ts: 1700000000000}`
to an empty series produces exactly one row, at the time whose calendar
rendering is 2023-11-14T22:13:20, with temperature 24.5. -/
theorem push_history_single_row_scenario (now : Int) :
    push_history HISTORY_POINTS [] snapC8 now
      = [{ time := some 1700000000000, temperature := some 24.5, humidity := some 55,
           luminosity := none, sound := none, fan_state := none }] ∧
    civilOfMs 1700000000000 = (2023, 11, 14, 22, 13, 20) :=
  ⟨rfl, by decide⟩

/-- C10: when the fetch of a refresh cycle returns an empty or absent
snapshot, no append is performed and every node's history series is
unchanged. -/
theorem refresh_empty_no_append (cap : Nat) (hist : String → List Row)
    (node : String) (now : Int) :
    refresh cap hist node (.ok none) now = .ok hist := rfl

end App

namespace App

/-- When every prior row has a usable time and the series is strictly
under capacity, `push_history` is plain append-and-sort: the `dropna`
removes nothing and the trim branch is not taken. -/
theorem push_history_of_lt (cap : Nat) (df : List Row) (last : Snapshot) (now : Int)
    (hvalid : ∀ r ∈ df, r.time.isSome = true) (hlen : df.length < cap) :
    push_history cap df last now = sortRows (df ++ [mkRow last now]) := by
  have hfil := filter_append_row df (mkRow last now) hvalid (mkRow_time_isSome last now)
  simp only [push_history, hfil]
  rw [if_neg]
  rw [(sortRows_perm (df ++ [mkRow last now])).length_eq]
  simp only [List.length_append, List.length_cons, List.length_nil]
  omega

/-- C9: the row-dropping branch is unreachable — the resolved time is
always a usable value, so one `push_history` call on a series of length
`n < cap` whose rows all have usable times yields exactly `n + 1` rows;
the new row always survives the drop step. -/
theorem push_history_growth (cap : Nat) (df : List Row) (last : Snapshot) (now : Int)
    (hvalid : ∀ r ∈ df, r.time.isSome = true) (hlen : df.length < cap) :
    (push_history cap df last now).length = df.length + 1 := by
  rw [push_history_of_lt cap df last now hvalid hlen,
    (sortRows_perm (df ++ [mkRow last now])).length_eq]
  simp

/-- The snapshot with no `ts` field at all. -/
def snapNoTs : Snapshot :=
  { ts := .absent, temperature := none, humidity := none,
    luminosity := none, sound := none, fan_state := none }

theorem push_history_growth_witness :
    (∀ r ∈ ([] : List Row), r.time.isSome = true) ∧ 0 < 120 ∧
    (push_history 120 [] snapNoTs 42).length = 0 + 1 :=
  ⟨fun r hr => absurd hr (List.not_mem_nil r), by decide,
    push_history_growth 120 [] snapNoTs 42 (fun r hr => absurd hr (List.not_mem_nil r))
      (by decide)⟩

/-- C3: when the snapshot's timestamp is absent or unparseable, the
appended row's resolved time is exactly the wall-clock value `now` read
during the call, and the row is present in the resulting series (never
dropped for the missing timestamp). -/
theorem push_history_wallclock_fallback (cap : Nat) (df : List Row) (last : Snapshot)
    (now : Int) (hts : last.ts = .absent ∨ last.ts = .invalid)
    (hvalid : ∀ r ∈ df, r.time.isSome = true) (hlen : df.length < cap) :
    (mkRow last now).time = some now ∧ mkRow last now ∈ push_history cap df last now := by
  constructor
  · rcases hts with h | h
    · simp [mkRow, h, ms_to_datetime]
    · simp [mkRow, h, ms_to_datetime]
  · rw [push_history_of_lt cap df last now hvalid hlen]
    exact ((sortRows_perm (df ++ [mkRow last now])).mem_iff).mpr
      (List.mem_append.mpr (Or.inr (List.mem_singleton_self _)))

theorem push_history_wallclock_fallback_witness :
    (mkRow snapNoTs 42).time = some 42 ∧
      mkRow snapNoTs 42 ∈ push_history 120 [] snapNoTs 42 :=
  push_history_wallclock_fallback 120 [] snapNoTs 42 (Or.inl rfl)
    (fun r hr => absurd hr (List.not_mem_nil r)) (by decide)

end App

namespace App

theorem sortT_of_sorted (L : List (Option Int)) (h : List.Sorted TLe L) : sortT L = L :=
  List.Sorted.insertionSort_eq h

/-- One append step of the top-capacity invariant: if the series' time
column is the `cap` largest of the resolved times seen so far (in sorted
order), it still is after the next `push_history`. -/
theorem push_history_times_step (cap : Nat) (hcap : 0 < cap) (df : List Row)
    (A : List (Option Int)) (last : Snapshot) (now : Int)
    (hA : ∀ x ∈ A, x.isSome = true)
    (hdf : timesOf df = (sortT A).drop (A.length - cap)) :
    timesOf (push_history cap df last now)
      = (sortT (A ++ [(mkRow last now).time])).drop (A.length + 1 - cap) := by
  have hvalid : ∀ r ∈ df, r.time.isSome = true := by
    intro r hr
    have h1 : r.time ∈ timesOf df := List.mem_map_of_mem _ hr
    rw [hdf] at h1
    exact hA _ (((List.perm_insertionSort TLe A).mem_iff).mp (List.mem_of_mem_drop h1))
  have hSsorted : List.Sorted TLe (sortT A) := List.sorted_insertionSort TLe A
  have hdfsorted : List.Sorted TLe (timesOf df) := by
    rw [hdf]; exact List.Pairwise.sublist (List.drop_sublist _ _) hSsorted
  have hdflen : (timesOf df).length = A.length - (A.length - cap) := by
    rw [hdf, List.length_drop, sortT_length]
  have htimes3 : timesOf (sortRows (df ++ [mkRow last now]))
      = List.orderedInsert TLe (mkRow last now).time ((sortT A).drop (A.length - cap)) := by
    rw [timesOf_sortRows]
    have h2 : timesOf (df ++ [mkRow last now]) = timesOf df ++ [(mkRow last now).time] := by
      simp [timesOf]
    rw [h2, sortT_append_singleton, sortT_of_sorted _ hdfsorted, hdf]
  have hins : sortT (A ++ [(mkRow last now).time])
      = List.orderedInsert TLe (mkRow last now).time (sortT A) :=
    sortT_append_singleton A _
  by_cases hAlen : A.length < cap
  · have hd0 : A.length - cap = 0 := by omega
    have hd1 : A.length + 1 - cap = 0 := by omega
    have hdflt : df.length < cap := by
      have := List.length_map df (fun r => r.time)
      simp only [timesOf] at hdflen
      omega
    rw [push_history_of_lt cap df last now hvalid hdflt, htimes3, hd0, hd1,
      List.drop_zero, List.drop_zero, hins]
  · -- at capacity: the oldest entry is evicted
    have hdfcap : df.length = cap := by
      have := List.length_map df (fun r => r.time)
      simp only [timesOf] at hdflen
      omega
    have hfil := filter_append_row df (mkRow last now) hvalid (mkRow_time_isSome last now)
    have hlen3 : (sortRows (df ++ [mkRow last now])).length = cap + 1 := by
      rw [(sortRows_perm (df ++ [mkRow last now])).length_eq]
      simp [hdfcap]
    simp only [push_history, hfil]
    rw [if_pos (by rw [hlen3]; omega)]
    simp only [ilocLast]
    rw [if_neg (by omega), hlen3]
    have hdrop1 : cap + 1 - cap = 1 := by omega
    rw [hdrop1]
    have hmap : timesOf ((sortRows (df ++ [mkRow last now])).drop 1)
        = (timesOf (sortRows (df ++ [mkRow last now]))).drop 1 := by
      simp [timesOf]
    rw [hmap, htimes3, ← orderedInsert_drop _ (A.length - cap) (sortT A) hSsorted, hins]
    congr 1
    omega

/-- Running a sequence of appends maintains the top-capacity invariant. -/
theorem runAppends_times_inv (cap : Nat) (hcap : 0 < cap)
    (inputs : List (Snapshot × Int)) :
    ∀ (df : List Row) (A : List (Option Int)),
      (∀ x ∈ A, x.isSome = true) →
      timesOf df = (sortT A).drop (A.length - cap) →
      timesOf (runAppends cap df inputs)
        = (sortT (A ++ allTimes inputs)).drop (A.length + inputs.length - cap) := by
  induction inputs with
  | nil =>
      intro df A hA hdf
      simpa [runAppends, allTimes] using hdf
  | cons p rest ih =>
      intro df A hA hdf
      obtain ⟨s, now⟩ := p
      have hstep := push_history_times_step cap hcap df A s now hA hdf
      have hA' : ∀ x ∈ A ++ [(mkRow s now).time], x.isSome = true := by
        intro x hx
        rcases List.mem_append.mp hx with h | h
        · exact hA x h
        · rcases List.mem_singleton.mp h with rfl
          exact mkRow_time_isSome s now
      have h := ih (push_history cap df s now) (A ++ [(mkRow s now).time]) hA'
        (by simpa using hstep)
      have hlist : (A ++ [(mkRow s now).time]) ++ allTimes rest
          = A ++ allTimes ((s, now) :: rest) := by
        simp [allTimes]
      have hlen : (A ++ [(mkRow s now).time]).length + rest.length
          = A.length + ((s, now) :: rest).length := by
        simp
        omega
      rw [runAppends, h, hlist, hlen]

end App

namespace App

/-- Every row of a `push_history` result is either a prior row or the
newly appended row. -/
theorem mem_of_mem_push_history (cap : Nat) (df : List Row) (last : Snapshot) (now : Int)
    (r : Row) (hr : r ∈ push_history cap df last now) : r ∈ df ++ [mkRow last now] := by
  have h1 : r ∈ sortRows ((df ++ [mkRow last now]).filter (fun x => x.time.isSome)) := by
    revert hr
    simp only [push_history, ilocLast]
    split
    · split
      · exact id
      · exact fun hr => List.mem_of_mem_drop hr
    · exact id
  exact List.mem_of_mem_filter (((sortRows_perm _).mem_iff).mp h1)

/-- Every row produced by a run of appends on an empty start is one of
the appended rows. -/
theorem runAppends_mem (cap : Nat) (inputs : List (Snapshot × Int)) :
    ∀ (df : List Row) (r : Row), r ∈ runAppends cap df inputs →
      r ∈ df ∨ ∃ p ∈ inputs, r = mkRow p.1 p.2 := by
  induction inputs with
  | nil => exact fun df r hr => Or.inl hr
  | cons p rest ih =>
      intro df r hr
      obtain ⟨s, now⟩ := p
      rw [runAppends] at hr
      rcases ih _ r hr with h | ⟨q, hq, rfl⟩
      · rcases List.mem_append.mp (mem_of_mem_push_history cap df s now r h) with h2 | h2
        · exact Or.inl h2
        · exact Or.inr ⟨(s, now), List.mem_cons_self _ _, List.mem_singleton.mp h2⟩
      · exact Or.inr ⟨q, List.mem_cons_of_mem _ hq, rfl⟩

/-- C2: for every append sequence and capacity `cap > 0`, starting from
an empty series: the length after the run is `min (number of appends)
cap` (hence always at most `cap`), the time column is exactly the `cap`
largest resolved times of all appends in ascending order (the oldest
entries beyond capacity are evicted), and every surviving row is one of
the appended rows. -/
theorem runAppends_bounded_topC (cap : Nat) (inputs : List (Snapshot × Int))
    (hcap : 0 < cap) :
    (runAppends cap [] inputs).length = min inputs.length cap ∧
    timesOf (runAppends cap [] inputs)
      = (sortT (allTimes inputs)).drop (inputs.length - cap) ∧
    ∀ r ∈ runAppends cap [] inputs, ∃ p ∈ inputs, r = mkRow p.1 p.2 := by
  have h := runAppends_times_inv cap hcap inputs [] []
    (fun x hx => absurd hx (List.not_mem_nil x))
    (by simp [timesOf, sortT, List.insertionSort])
  have htimes : timesOf (runAppends cap [] inputs)
      = (sortT (allTimes inputs)).drop (inputs.length - cap) := by
    simpa using h
  refine ⟨?_, htimes, ?_⟩
  · have h1 : (runAppends cap [] inputs).length
        = (timesOf (runAppends cap [] inputs)).length := by
      simp [timesOf]
    have h2 : (allTimes inputs).length = inputs.length := by simp [allTimes]
    rw [h1, htimes, List.length_drop, sortT_length]
    omega
  · intro r hr
    rcases runAppends_mem cap inputs [] r hr with h2 | h2
    · exact absurd h2 (List.not_mem_nil r)
    · exact h2

/-- The 130-append scenario: snapshots with timestamps 1, 2, ..., 130
appended in order. -/
def inputs130 : List (Snapshot × Int) :=
  (List.range 130).map (fun i =>
    ({ ts := .valid ((i : Int) + 1), temperature := none, humidity := none,
       luminosity := none, sound := none, fan_state := none }, 0))

set_option maxRecDepth 100000 in
set_option maxHeartbeats 1000000 in
theorem runAppends_bounded_topC_witness :
    0 < 120 ∧
    (runAppends 120 [] inputs130).length = 120 ∧
    timesOf (runAppends 120 [] inputs130)
      = (List.range 120).map (fun i => some ((i : Int) + 11)) := by
  have h := runAppends_bounded_topC 120 inputs130 (by decide)
  refine ⟨by decide, ?_, ?_⟩
  · rw [h.1]; decide
  · rw [h.2.1]; decide

end App

namespace App

/-- Number of rows of the series whose resolved time is `t`. -/
def countT (t : Int) (df : List Row) : Nat :=
  (df.filter (fun r => decide (r.time = some t))).length

/-- A snapshot with timestamp 1 and no metric values, appended twice to
exhibit duplicate timestamps. -/
def snapDup : Snapshot :=
  { ts := .valid 1, temperature := none, humidity := none,
    luminosity := none, sound := none, fan_state := none }

/-- C7 counterexample: `push_history` performs no deduplication —
appending the same snapshot (timestamp 1) twice to an empty series
leaves two rows with resolved time 1, so the series does not contain at
most one entry per resolved timestamp value. -/
theorem push_history_duplicate_counterexample :
    countT 1 (push_history 120 (push_history 120 [] snapDup 0) snapDup 0) = 2 ∧
    ¬ countT 1 (push_history 120 (push_history 120 [] snapDup 0) snapDup 0) ≤ 1 := by
  decide

/-- C7 amended: the aggregator orders by timestamp but does not
deduplicate — appending a snapshot whose resolved time `t` is already
present keeps all rows: while under capacity, the number of rows at time
`t` grows by exactly one on every append resolving to `t`. -/
theorem push_history_no_dedup (cap : Nat) (df : List Row) (last : Snapshot) (now : Int)
    (t : Int) (hvalid : ∀ r ∈ df, r.time.isSome = true) (hlen : df.length < cap)
    (ht : (mkRow last now).time = some t) :
    countT t (push_history cap df last now) = countT t df + 1 := by
  rw [push_history_of_lt cap df last now hvalid hlen]
  unfold countT
  rw [((sortRows_perm (df ++ [mkRow last now])).filter _).length_eq]
  simp [List.filter_append, List.filter_cons, ht]

theorem push_history_no_dedup_witness :
    countT 1 (push_history 120 [mkRow snapDup 0] snapDup 0)
      = countT 1 [mkRow snapDup 0] + 1 :=
  push_history_no_dedup 120 [mkRow snapDup 0] snapDup 0 1 (by decide) (by decide) (by decide)

end App
